import Mathlib

/-!
Verification development for the Jarvis chat-assistant backend.

The definitions below are shallow embeddings of the Python source:
  - src/app/main.py            (sentence segmentation, TTS dispatch, SSE stream generator)
  - src/app/services/groq_service.py     (credential fallback for the whole-response call)
  - src/app/services/chat_service.py     (session registry, persistence, streaming saves)
  - src/app/services/realtime_service.py (search-augmented whole-response call)
  - src/app/utils/retry.py               (bounded retry with backoff)

Text is modelled as a list of characters; whitespace handling mirrors the
Python `re` and `str` operations used by the source.
-/

abbrev Str := List Char

def str (s : String) : Str := s.toList

/-- Whitespace recognised by Python regular-expression class backslash-s and by
str.split / str.strip for the character range the service handles. -/
def isWs (c : Char) : Bool :=
  c = ' ' || c = '\t' || c = '\n' || c = '\x0d' || c = '\x0b' || c = '\x0c'

/-- The sentence-terminator characters of the pattern in main.py line 234. -/
def isPunct (c : Char) : Bool :=
  c = '.' || c = '!' || c = '?' || c = ',' || c = ';' || c = ':'

/-- The non-whitespace content of a text, used to state conservation of text
"modulo whitespace". -/
def noWs (s : Str) : Str := s.filter (fun c => !isWs c)

/-- Concatenation of a list of texts. -/
def flat (l : List Str) : Str := l.foldr (· ++ ·) []

/-- Python str.strip(): drop whitespace from both ends. -/
def strip (s : Str) : Str :=
  ((s.dropWhile isWs).reverse.dropWhile isWs).reverse

/-- Helper for `words`: accumulates the current word (reversed) while scanning. -/
def wordsAux (cur : Str) : Str → List Str
  | [] => if cur.isEmpty then [] else [cur.reverse]
  | c :: rest =>
    if isWs c then
      if cur.isEmpty then wordsAux [] rest else cur.reverse :: wordsAux [] rest
    else wordsAux (c :: cur) rest

/-- Python str.split() with no argument: words separated by whitespace runs. -/
def words (s : Str) : List Str := wordsAux [] s

/-- len(s.split()): the word count used by the segmentation thresholds. -/
def wc (s : Str) : Nat := (words s).length

-- Basic conservation lemmas ---------------------------------------------------

theorem noWs_append (a b : Str) : noWs (a ++ b) = noWs a ++ noWs b :=
  List.filter_append ..

theorem noWs_cons_ws (c : Char) (s : Str) (h : isWs c = true) :
    noWs (c :: s) = noWs s := by
  simp [noWs, List.filter_cons, h]

theorem noWs_space (a b : Str) : noWs (a ++ ' ' :: b) = noWs a ++ noWs b := by
  rw [noWs_append, noWs_cons_ws]; rfl

theorem noWs_dropWhile_ws (s : Str) : noWs (s.dropWhile isWs) = noWs s := by
  induction s with
  | nil => rfl
  | cons c rest ih =>
    by_cases h : isWs c = true
    · rw [List.dropWhile_cons_of_pos h, ih, noWs_cons_ws c rest h]
    · rw [List.dropWhile_cons_of_neg h]

theorem noWs_reverse (s : Str) : noWs s.reverse = (noWs s).reverse := by
  simp [noWs, List.filter_reverse]

theorem noWs_strip (s : Str) : noWs (strip s) = noWs s := by
  unfold strip
  rw [noWs_reverse, noWs_dropWhile_ws, noWs_reverse, List.reverse_reverse,
    noWs_dropWhile_ws]

theorem noWs_of_strip_nil (s : Str) (h : strip s = []) : noWs s = [] := by
  rw [← noWs_strip, h]; rfl

theorem flat_append (a b : List Str) : flat (a ++ b) = flat a ++ flat b := by
  induction a with
  | nil => rfl
  | cons x xs ih => simp [flat, List.foldr_append] at *; simp [List.append_assoc, ih]

theorem flat_cons (x : Str) (l : List Str) : flat (x :: l) = x ++ flat l := rfl

-- Word-count lemmas -----------------------------------------------------------

theorem wordsAux_sep (b : Str) : ∀ (a : Str) (cur : Str),
    wordsAux cur (a ++ ' ' :: b) = wordsAux cur a ++ words b := by
  intro a
  induction a with
  | nil =>
    intro cur
    by_cases h : cur.isEmpty
    · simp [wordsAux, isWs, h, words]
    · simp [wordsAux, isWs, h, words]
  | cons c rest ih =>
    intro cur
    by_cases hws : isWs c = true
    · by_cases h : cur.isEmpty
      · simp [wordsAux, hws, h, ih]
      · simp [wordsAux, hws, h, ih]
    · simp [wordsAux, hws, ih]

theorem words_sep (a b : Str) : words (a ++ ' ' :: b) = words a ++ words b :=
  wordsAux_sep b a []

theorem words_dropWhile_ws (s : Str) : words (s.dropWhile isWs) = words s := by
  induction s with
  | nil => rfl
  | cons c rest ih =>
    by_cases h : isWs c = true
    · rw [List.dropWhile_cons_of_pos h, ih]
      simp [words, wordsAux, h]
    · rw [List.dropWhile_cons_of_neg h]

theorem wordsAux_ws_nil : ∀ (suffix : Str), (∀ c ∈ suffix, isWs c = true) →
    ∀ cur, wordsAux cur suffix = wordsAux cur [] := by
  intro suffix
  induction suffix with
  | nil => intro _ cur; rfl
  | cons c rest ih =>
    intro h cur
    have hc : isWs c = true := h c (List.mem_cons_self ..)
    have ih2 := ih (fun x hx => h x (List.mem_cons_of_mem _ hx))
    cases cur with
    | nil =>
      simp only [wordsAux, hc, if_pos rfl, List.isEmpty_nil, if_true]
      exact ih2 []
    | cons x xs =>
      simp only [wordsAux, hc, List.isEmpty_cons, if_true]
      have := ih2 []
      simp only [wordsAux, List.isEmpty_nil] at this
      simp [this]

theorem wordsAux_ws_suffix (suffix : Str) (hsuf : ∀ c ∈ suffix, isWs c = true) :
    ∀ (t : Str) (cur : Str), wordsAux cur (t ++ suffix) = wordsAux cur t := by
  intro t
  induction t with
  | nil =>
    intro cur
    simpa using wordsAux_ws_nil suffix hsuf cur
  | cons c rest ih =>
    intro cur
    by_cases hws : isWs c = true
    · by_cases h : cur.isEmpty
      · simp [wordsAux, hws, h, ih]
      · simp [wordsAux, hws, h, ih]
    · simp [wordsAux, hws, ih]

theorem words_ws_suffix (t suffix : Str) (hsuf : ∀ c ∈ suffix, isWs c = true) :
    words (t ++ suffix) = words t :=
  wordsAux_ws_suffix suffix hsuf t []

theorem words_strip (s : Str) : words (strip s) = words s := by
  unfold strip
  set u := s.dropWhile isWs with hu
  have h1 : words u = words s := words_dropWhile_ws s
  rw [← h1]
  have hdecomp : u = (u.reverse.dropWhile isWs).reverse ++ (u.reverse.takeWhile isWs).reverse := by
    conv_lhs => rw [← List.reverse_reverse u]
    rw [← List.reverse_append, List.takeWhile_append_dropWhile]
  conv_rhs => rw [hdecomp]
  rw [words_ws_suffix]
  intro c hc
  rw [List.mem_reverse] at hc
  exact List.mem_takeWhile_imp hc

theorem wc_strip (s : Str) : wc (strip s) = wc s := by
  unfold wc; rw [words_strip]

theorem wc_sep (a b : Str) : wc (a ++ ' ' :: b) = wc a + wc b := by
  unfold wc; rw [words_sep, List.length_append]

theorem wc_strip_sep (a b : Str) : wc (strip (a ++ ' ' :: b)) = wc a + wc b := by
  rw [wc_strip, wc_sep]

-- _SPLIT_RE.split: re.compile(r"(?<=[.!?,;:])\s+").split(buf) ------------------

/-- True when the last scanned character (head of the reversed current piece)
is a sentence terminator, i.e. the lookbehind of the split pattern matches. -/
def headPunct : Str → Bool
  | p :: _ => isPunct p
  | [] => false

/-- Scanner for the split: `cur` is the current piece reversed; `skip` is true
while consuming the whitespace run of a match (the run is greedy, so further
whitespace extends the same separator instead of starting a new piece). -/
def splitReAux (cur : Str) (skip : Bool) : Str → List Str
  | [] => [cur.reverse]
  | c :: rest =>
    if skip && isWs c then splitReAux cur skip rest
    else if isWs c && headPunct cur then cur.reverse :: splitReAux [] true rest
    else splitReAux (c :: cur) false rest

/-- `_SPLIT_RE.split(buf)`: pieces separated by whitespace runs that follow a
sentence terminator; the separators themselves are dropped. -/
def splitRe (s : Str) : List Str := splitReAux [] false s

theorem noWs_flat_splitReAux : ∀ (l : Str) (cur : Str) (skip : Bool),
    noWs (flat (splitReAux cur skip l)) = noWs cur.reverse ++ noWs l := by
  intro l
  induction l with
  | nil =>
    intro cur skip
    simp [splitReAux, flat, noWs]
  | cons c rest ih =>
    intro cur skip
    by_cases h1 : (skip && isWs c) = true
    · have hws : isWs c = true := by
        rcases Bool.and_eq_true .. |>.mp h1 with ⟨_, h⟩; exact h
      simp only [splitReAux, if_pos h1]
      rw [ih, noWs_cons_ws c rest hws]
    · by_cases h2 : (isWs c && headPunct cur) = true
      · have hws : isWs c = true := by
          rcases Bool.and_eq_true .. |>.mp h2 with ⟨h, _⟩; exact h
        simp only [splitReAux, if_neg h1, if_pos h2, flat_cons]
        rw [noWs_append, ih, noWs_cons_ws c rest hws]
        simp [noWs]
      · simp only [splitReAux, if_neg h1, if_neg h2]
        rw [ih]
        have : noWs (c :: cur).reverse = noWs cur.reverse ++ noWs [c] := by
          simp only [List.reverse_cons]
          rw [noWs_append]
        rw [this]
        have hrhs : noWs (c :: rest) = noWs [c] ++ noWs rest := by
          simp [noWs, List.filter_cons]
          by_cases hc : isWs c = true <;> simp [hc]
        rw [hrhs, List.append_assoc]

theorem noWs_flat_splitRe (s : Str) : noWs (flat (splitRe s)) = noWs s := by
  unfold splitRe
  rw [noWs_flat_splitReAux]
  rfl

theorem splitReAux_ne_nil : ∀ (l : Str) (cur : Str) (skip : Bool),
    splitReAux cur skip l ≠ [] := by
  intro l
  induction l with
  | nil => intro cur skip; simp [splitReAux]
  | cons c rest ih =>
    intro cur skip
    by_cases h1 : (skip && isWs c) = true
    · simp only [splitReAux, if_pos h1]; exact ih _ _
    · by_cases h2 : (isWs c && headPunct cur) = true
      · simp only [splitReAux, if_neg h1, if_pos h2]
        exact List.cons_ne_nil _ _
      · simp only [splitReAux, if_neg h1, if_neg h2]; exact ih _ _

theorem splitRe_ne_nil (s : Str) : splitRe s ≠ [] := splitReAux_ne_nil s [] false


-- _split_sentences (main.py lines 240-263) ------------------------------------

/-- _MIN_WORDS_FIRST = 2 (main.py line 235). -/
def MIN_WORDS_FIRST : Nat := 2

/-- _MIN_WORDS = 3 (main.py line 236). -/
def MIN_WORDS : Nat := 3

/-- _MERGE_IF_WORDS = 2 (main.py line 237). -/
def MERGE_IF_WORDS : Nat := 2

/-- `s = (pending + " " + s).strip()` when a fragment is held, else the piece
unchanged (main.py lines 251-253). -/
def mergePend (pending s : Str) : Str :=
  if pending.isEmpty then s else strip (pending ++ ' ' :: s)

/-- `min_req = _MIN_WORDS_FIRST if not sentences else _MIN_WORDS` (line 255). -/
def minReqOf (acc : List Str) : Nat :=
  if acc.isEmpty then MIN_WORDS_FIRST else MIN_WORDS

/-- The for-loop of _split_sentences over the raw stripped pieces: threads the
held-too-short `pending` fragment and accumulates accepted sentences. -/
def splitLoop : List Str → List Str → Str → List Str × Str
  | [], acc, pending => (acc, pending)
  | s :: rest, acc, pending =>
    if wc (mergePend pending s) < minReqOf acc then
      splitLoop rest acc (mergePend pending s)
    else splitLoop rest (acc ++ [mergePend pending s]) []

/-- `raw = [p.strip() for p in parts[:-1] if p.strip()]` (line 246). -/
def rawPieces (parts : List Str) : List Str :=
  (parts.dropLast.map strip).filter (fun p => !p.isEmpty)

/-- `remaining = (pending + " " + parts[-1].strip() if pending else
parts[-1].strip())` (line 262). -/
def remJoin (pending lastP : Str) : Str :=
  if pending.isEmpty then lastP else pending ++ ' ' :: lastP

/-- _split_sentences(buf): split the buffer on the sentence-boundary pattern,
keep too-short fragments pending, and return the accepted sentences together
with the unterminated remainder. -/
def splitSentences (buf : Str) : List Str × Str :=
  if (splitRe buf).length ≤ 1 then ([], buf)
  else
    ((splitLoop (rawPieces (splitRe buf)) [] []).1,
     remJoin (splitLoop (rawPieces (splitRe buf)) [] []).2
       (strip ((splitRe buf).getLastD [])))

-- _merge_short (main.py lines 266-280) ----------------------------------------

/-- The inner while-loop of _merge_short: absorb following sentences of at most
MERGE_IF_WORDS words into the current one, then start the next group. -/
def mergeGroup (cur : Str) : List Str → List Str
  | [] => [cur]
  | s :: rest =>
    if wc s ≤ MERGE_IF_WORDS then mergeGroup (strip (cur ++ ' ' :: s)) rest
    else cur :: mergeGroup s rest

/-- _merge_short(sentences). -/
def mergeShort : List Str → List Str
  | [] => []
  | s :: rest => mergeGroup s rest

-- Conservation and word-count facts for the splitter --------------------------

theorem noWs_nil : noWs [] = [] := rfl

theorem flat_nil : flat [] = [] := rfl

theorem flat_singleton (x : Str) : flat [x] = x := by
  simp [flat]

theorem noWs_mergePend (p s : Str) : noWs (mergePend p s) = noWs p ++ noWs s := by
  unfold mergePend
  by_cases hp : p.isEmpty
  · have : p = [] := List.isEmpty_iff.mp hp
    subst this
    rw [if_pos hp, noWs_nil, List.nil_append]
  · rw [if_neg hp, noWs_strip, noWs_space]

theorem wc_mergePend (p s : Str) : wc (mergePend p s) = wc p + wc s := by
  unfold mergePend
  by_cases hp : p.isEmpty
  · have : p = [] := List.isEmpty_iff.mp hp
    subst this
    rw [if_pos hp]
    simp [wc, words, wordsAux]
  · rw [if_neg hp, wc_strip_sep]

theorem noWs_remJoin (p l : Str) : noWs (remJoin p l) = noWs p ++ noWs l := by
  unfold remJoin
  by_cases hp : p.isEmpty
  · have : p = [] := List.isEmpty_iff.mp hp
    subst this
    rw [if_pos hp, noWs_nil, List.nil_append]
  · rw [if_neg hp, noWs_space]

theorem splitLoop_content : ∀ (raws acc : List Str) (pending : Str),
    noWs (flat (splitLoop raws acc pending).1) ++ noWs (splitLoop raws acc pending).2
      = noWs (flat acc) ++ noWs pending ++ noWs (flat raws) := by
  intro raws
  induction raws with
  | nil =>
    intro acc pending
    rw [splitLoop, flat_nil, noWs_nil, List.append_nil]
  | cons s rest ih =>
    intro acc pending
    simp only [splitLoop]
    by_cases h : wc (mergePend pending s) < minReqOf acc
    · rw [if_pos h, ih, noWs_mergePend, flat_cons, noWs_append]
      simp [List.append_assoc]
    · rw [if_neg h, ih, flat_append, noWs_append, flat_singleton, noWs_mergePend,
        flat_cons, noWs_append, noWs_nil]
      simp [List.append_assoc]

/-- The shape _split_sentences guarantees: the first accepted sentence has at
least MIN_WORDS_FIRST words, later ones at least MIN_WORDS. -/
def sentOK : List Str → Prop
  | [] => True
  | a :: t => 2 ≤ wc a ∧ ∀ s ∈ t, 3 ≤ wc s

theorem sentOK_append (acc : List Str) (x : Str) (hacc : sentOK acc)
    (h1 : acc = [] → 2 ≤ wc x) (h2 : acc ≠ [] → 3 ≤ wc x) :
    sentOK (acc ++ [x]) := by
  cases acc with
  | nil => exact ⟨h1 rfl, by intro s hs; simp at hs⟩
  | cons a t =>
    obtain ⟨ha, ht⟩ := hacc
    refine ⟨ha, ?_⟩
    intro s hs
    rcases List.mem_append.mp hs with hs2 | hs2
    · exact ht s hs2
    · rw [List.mem_singleton] at hs2
      subst hs2
      exact h2 (List.cons_ne_nil _ _)

theorem splitLoop_ok : ∀ (raws acc : List Str) (pending : Str), sentOK acc →
    sentOK (splitLoop raws acc pending).1 := by
  intro raws
  induction raws with
  | nil => intro acc pending h; exact h
  | cons s rest ih =>
    intro acc pending hacc
    simp only [splitLoop]
    by_cases h : wc (mergePend pending s) < minReqOf acc
    · rw [if_pos h]; exact ih _ _ hacc
    · rw [if_neg h]
      refine ih _ _ (sentOK_append acc _ hacc ?_ ?_)
      · intro hnil
        subst hnil
        simp only [minReqOf, List.isEmpty_nil, if_true, MIN_WORDS_FIRST, not_lt] at h
        exact h
      · intro hne
        have hemp : acc.isEmpty = false := by
          cases acc with
          | nil => exact absurd rfl hne
          | cons a t => rfl
        simp only [minReqOf, hemp, Bool.false_eq_true, if_false, MIN_WORDS, not_lt] at h
        exact h

theorem dropLast_append_getLastD (l : List Str) (h : l ≠ []) (d : Str) :
    l.dropLast ++ [l.getLastD d] = l := by
  have : l.getLastD d = l.getLast h := by
    rw [List.getLastD_eq_getLast?, List.getLast?_eq_getLast l h]
    rfl
  rw [this]
  exact List.dropLast_append_getLast h

theorem noWs_flat_rawPieces (parts : List Str) :
    noWs (flat (rawPieces parts)) = noWs (flat parts.dropLast) := by
  unfold rawPieces
  induction parts.dropLast with
  | nil => rfl
  | cons x xs ih =>
    simp only [List.map_cons, List.filter_cons]
    by_cases h : (strip x).isEmpty
    · have hnil : strip x = [] := List.isEmpty_iff.mp h
      have hx : noWs x = [] := noWs_of_strip_nil x hnil
      simp only [h, Bool.not_true, Bool.false_eq_true, if_false, ih, flat_cons,
        noWs_append, hx, List.nil_append]
    · have hemp : (strip x).isEmpty = false := Bool.of_not_eq_true h
      simp only [hemp, Bool.not_false, if_true, flat_cons, noWs_append, ih, noWs_strip]

theorem splitSentences_content (buf : Str) :
    noWs (flat (splitSentences buf).1) ++ noWs (splitSentences buf).2 = noWs buf := by
  unfold splitSentences
  by_cases hlen : (splitRe buf).length ≤ 1
  · rw [if_pos hlen, flat_nil, noWs_nil, List.nil_append]
  · rw [if_neg hlen]
    have hne : splitRe buf ≠ [] := splitRe_ne_nil buf
    rw [noWs_remJoin, ← List.append_assoc, splitLoop_content, flat_nil, noWs_nil,
      List.nil_append, List.nil_append, noWs_flat_rawPieces, noWs_strip]
    have hlast : noWs (flat (splitRe buf).dropLast) ++ noWs ((splitRe buf).getLastD [])
        = noWs buf := by
      have := dropLast_append_getLastD (splitRe buf) hne []
      calc noWs (flat (splitRe buf).dropLast) ++ noWs ((splitRe buf).getLastD [])
          = noWs (flat ((splitRe buf).dropLast ++ [(splitRe buf).getLastD []])) := by
            rw [flat_append, noWs_append, flat_singleton]
        _ = noWs (flat (splitRe buf)) := by rw [this]
        _ = noWs buf := noWs_flat_splitRe buf
    exact hlast

theorem splitSentences_ok (buf : Str) : sentOK (splitSentences buf).1 := by
  unfold splitSentences
  by_cases hlen : (splitRe buf).length ≤ 1
  · rw [if_pos hlen]; trivial
  · rw [if_neg hlen]
    exact splitLoop_ok _ [] [] trivial

-- _stream_generator TTS segmentation path (main.py lines 297-389) --------------

/-- `_submit(text)` (lines 305-308): ignored when the text is empty after
stripping, otherwise the text is queued for synthesis. The model records the
submitted sentence texts in submission order. -/
def submitTo (queue : List Str) (text : Str) : List Str :=
  if (strip text).isEmpty then queue else queue ++ [text]

/-- Segmentation state of one streaming response: the unterminated `buffer`,
the `held` likely-incomplete tail sentence, the `is_first` flag, and the
sentences submitted to the TTS pool so far (in submission order). -/
structure SegState where
  buffer : Str
  held : Option Str
  isFirst : Bool
  submitted : List Str
deriving DecidableEq

/-- `if held and sentences and len(sentences[0].split()) <= _MERGE_IF_WORDS:`
(lines 340-342): absorb a short leading sentence into the held fragment. -/
def heldMerge : Option Str → List Str → Option Str × List Str
  | some h, s :: rest =>
    if wc s ≤ MERGE_IF_WORDS then (some (strip (h ++ ' ' :: s)), rest)
    else (some h, s :: rest)
  | held, l => (held, l)

/-- The per-sentence for-loop (lines 344-360): sentences below the current
minimum word count are skipped; otherwise any held fragment is submitted, and
the sentence is held when it is the last of the batch, else submitted. -/
def senLoop : Option Str → Bool → List Str → List Str → Option Str × Bool × List Str
  | held, isFirst, submitted, [] => (held, isFirst, submitted)
  | held, isFirst, submitted, sent :: rest =>
    if wc sent < (if isFirst then MIN_WORDS_FIRST else MIN_WORDS) then
      senLoop held isFirst submitted rest
    else
      match held with
      | some h =>
        if rest.isEmpty then (some sent, false, submitTo submitted h)
        else senLoop none false (submitTo (submitTo submitted h) sent) rest
      | none =>
        if rest.isEmpty then (some sent, isFirst, submitted)
        else senLoop none false (submitTo submitted sent) rest

/-- Processing of one text delta (lines 336-360): extend the buffer, split,
merge short sentences, merge a short head into the held fragment, then run the
per-sentence loop. -/
def feedDelta (st : SegState) (chunk : Str) : SegState :=
  let split := splitSentences (st.buffer ++ chunk)
  let merged := mergeShort split.1
  let hm := heldMerge st.held merged
  let out := senLoop hm.1 st.isFirst st.submitted hm.2
  ⟨split.2, out.1, out.2.1, out.2.2⟩

/-- The end-of-stream flush (lines 368-379): combine the held fragment and the
stripped remaining buffer and submit what is left. Returns the final list of
submitted sentence texts. -/
def flushSeg (st : SegState) : List Str :=
  let remaining := strip st.buffer
  match st.held with
  | some h =>
    if ¬remaining.isEmpty ∧ wc remaining ≤ MERGE_IF_WORDS then
      submitTo st.submitted (strip (h ++ ' ' :: remaining))
    else
      if ¬remaining.isEmpty then submitTo (submitTo st.submitted h) remaining
      else submitTo st.submitted h
  | none =>
    if ¬remaining.isEmpty then submitTo st.submitted remaining else st.submitted

/-- A fresh segmenter (lines 300-302): empty buffer, nothing held, first
sentence pending, nothing submitted. -/
def initSeg : SegState := ⟨[], none, true, []⟩

/-- Feeding a delta sequence to a fresh segmenter and flushing at end of
stream: the sentence texts submitted for speech synthesis, in order. -/
def runSegmenter (deltas : List Str) : List Str :=
  flushSeg (deltas.foldl feedDelta initSeg)

-- No-loss lemmas for the generator loop ----------------------------------------

/-- Non-whitespace content of the optional held fragment. -/
def noWsOpt : Option Str → Str
  | none => []
  | some h => noWs h

theorem submitTo_content (q : List Str) (t : Str) :
    noWs (flat (submitTo q t)) = noWs (flat q) ++ noWs t := by
  unfold submitTo
  by_cases h : (strip t).isEmpty
  · have : noWs t = [] := noWs_of_strip_nil t (List.isEmpty_iff.mp h)
    rw [if_pos h, this, List.append_nil]
  · rw [if_neg h, flat_append, noWs_append, flat_singleton]

theorem mergeGroup_id (l : List Str) : ∀ (cur : Str), (∀ s ∈ l, 3 ≤ wc s) →
    mergeGroup cur l = cur :: l := by
  induction l with
  | nil => intro cur _; rfl
  | cons s rest ih =>
    intro cur h
    have hs : 3 ≤ wc s := h s (List.mem_cons_self ..)
    have hns : ¬ wc s ≤ MERGE_IF_WORDS := by
      simp only [MERGE_IF_WORDS]
      omega
    simp only [mergeGroup, if_neg hns]
    rw [ih s (fun x hx => h x (List.mem_cons_of_mem _ hx))]

theorem mergeShort_id (l : List Str) (h : sentOK l) : mergeShort l = l := by
  cases l with
  | nil => rfl
  | cons a t =>
    obtain ⟨_, ht⟩ := h
    simp only [mergeShort]
    exact mergeGroup_id t a ht

theorem heldMerge_content (held : Option Str) (l : List Str) :
    noWsOpt (heldMerge held l).1 ++ noWs (flat (heldMerge held l).2)
      = noWsOpt held ++ noWs (flat l) := by
  match held, l with
  | none, l => rfl
  | some h, [] => rfl
  | some h, s :: rest =>
    simp only [heldMerge]
    by_cases hw : wc s ≤ MERGE_IF_WORDS
    · rw [if_pos hw]
      simp only [noWsOpt]
      rw [noWs_strip, noWs_space, flat_cons, noWs_append, List.append_assoc]
    · rw [if_neg hw]

/-- Precondition under which the per-sentence loop skips nothing: either this
is still the first sentence of the stream and the batch has the
_split_sentences shape, or every sentence of the batch has at least MIN_WORDS
words. -/
def loopOK (isFirst : Bool) (l : List Str) : Prop :=
  (isFirst = true ∧ sentOK l) ∨ (∀ s ∈ l, 3 ≤ wc s)

theorem loopOK_tail (isFirst : Bool) (sent : Str) (rest : List Str)
    (h : loopOK isFirst (sent :: rest)) : ∀ s ∈ rest, 3 ≤ wc s := by
  rcases h with ⟨_, _, ht⟩ | h
  · exact ht
  · exact fun s hs => h s (List.mem_cons_of_mem _ hs)

theorem loopOK_no_skip (isFirst : Bool) (sent : Str) (rest : List Str)
    (h : loopOK isFirst (sent :: rest)) :
    ¬ wc sent < (if isFirst then MIN_WORDS_FIRST else MIN_WORDS) := by
  rcases h with ⟨hf, h2, _⟩ | h
  · rw [hf, if_pos rfl]
    simp only [MIN_WORDS_FIRST]
    omega
  · have := h sent (List.mem_cons_self ..)
    by_cases hf : isFirst = true
    · rw [if_pos hf]; simp only [MIN_WORDS_FIRST]; omega
    · rw [if_neg hf]; simp only [MIN_WORDS]; omega

theorem senLoop_cons (held : Option Str) (isFirst : Bool) (submitted : List Str)
    (sent : Str) (rest : List Str) :
    senLoop held isFirst submitted (sent :: rest) =
      if wc sent < (if isFirst then MIN_WORDS_FIRST else MIN_WORDS) then
        senLoop held isFirst submitted rest
      else
        match held with
        | some h =>
          if rest.isEmpty then (some sent, false, submitTo submitted h)
          else senLoop none false (submitTo (submitTo submitted h) sent) rest
        | none =>
          if rest.isEmpty then (some sent, isFirst, submitted)
          else senLoop none false (submitTo submitted sent) rest := rfl

theorem senLoop_content : ∀ (l : List Str) (held : Option Str) (isFirst : Bool)
    (submitted : List Str), loopOK isFirst l →
    noWs (flat (senLoop held isFirst submitted l).2.2)
        ++ noWsOpt (senLoop held isFirst submitted l).1
      = noWs (flat submitted) ++ noWsOpt held ++ noWs (flat l) := by
  intro l
  induction l with
  | nil =>
    intro held isFirst submitted _
    simp [senLoop, flat_nil, noWs_nil]
  | cons sent rest ih =>
    intro held isFirst submitted h
    have hskip := loopOK_no_skip isFirst sent rest h
    have htail := loopOK_tail isFirst sent rest h
    cases held with
    | some hld =>
      rw [senLoop_cons, if_neg hskip]
      dsimp only
      cases rest with
      | nil =>
        simp [submitTo_content, flat_cons, flat_nil, noWs_append, noWs_nil,
          noWsOpt, List.append_assoc]
      | cons r2 rs =>
        have hne : ¬((r2 :: rs).isEmpty = true) := by simp
        rw [if_neg hne, ih _ _ _ (Or.inr htail)]
        simp [submitTo_content, flat_cons, noWs_append, noWsOpt, List.append_assoc]
    | none =>
      rw [senLoop_cons, if_neg hskip]
      dsimp only
      cases rest with
      | nil =>
        simp [flat_cons, flat_nil, noWs_append, noWs_nil, noWsOpt,
          List.append_assoc]
      | cons r2 rs =>
        have hne : ¬((r2 :: rs).isEmpty = true) := by simp
        rw [if_neg hne, ih _ _ _ (Or.inr htail)]
        simp [submitTo_content, flat_cons, noWs_append, noWsOpt, List.append_assoc]

theorem senLoop_post : ∀ (l : List Str) (held : Option Str) (isFirst : Bool)
    (submitted : List Str), loopOK isFirst l → l ≠ [] →
    ((senLoop held isFirst submitted l).1).isSome = true := by
  intro l
  induction l with
  | nil => intro _ _ _ _ h; exact absurd rfl h
  | cons sent rest ih =>
    intro held isFirst submitted h _
    have hskip := loopOK_no_skip isFirst sent rest h
    have htail := loopOK_tail isFirst sent rest h
    cases held with
    | some hld =>
      rw [senLoop_cons, if_neg hskip]
      dsimp only
      cases rest with
      | nil => rfl
      | cons r2 rs =>
        have hne : ¬((r2 :: rs).isEmpty = true) := by simp
        rw [if_neg hne]
        exact ih _ _ _ (Or.inr htail) (List.cons_ne_nil _ _)
    | none =>
      rw [senLoop_cons, if_neg hskip]
      dsimp only
      cases rest with
      | nil => rfl
      | cons r2 rs =>
        have hne : ¬((r2 :: rs).isEmpty = true) := by simp
        rw [if_neg hne]
        exact ih _ _ _ (Or.inr htail) (List.cons_ne_nil _ _)

-- Invariant of the streaming loop ----------------------------------------------

/-- Invariant of the generator state: before the first submission the held
fragment may be empty, afterwards a held fragment always exists. -/
def segInv (st : SegState) : Prop :=
  st.isFirst = true ∨ st.held.isSome = true

/-- All non-whitespace text owned by a generator state: submitted sentences,
held fragment, and unterminated buffer, in order. -/
def segContent (st : SegState) : Str :=
  noWs (flat st.submitted) ++ noWsOpt st.held ++ noWs st.buffer

theorem loopOK_heldMerge (held : Option Str) (l : List Str) (isFirst : Bool)
    (hOK : sentOK l) (hinv : isFirst = true ∨ held.isSome = true) :
    loopOK isFirst (heldMerge held l).2 := by
  cases held with
  | none =>
    have hf : isFirst = true := by
      rcases hinv with hf | hcontra
      · exact hf
      · simp at hcontra
    exact Or.inl ⟨hf, hOK⟩
  | some h =>
    cases l with
    | nil => exact Or.inr (by intro s hs; simp [heldMerge] at hs)
    | cons s rest =>
      obtain ⟨_, ht⟩ := hOK
      by_cases hw : wc s ≤ MERGE_IF_WORDS
      · simp only [heldMerge, if_pos hw]
        exact Or.inr ht
      · simp only [heldMerge, if_neg hw]
        refine Or.inr ?_
        intro x hx
        rcases List.mem_cons.mp hx with hx | hx
        · subst hx
          simp only [MERGE_IF_WORDS] at hw
          omega
        · exact ht x hx

theorem heldMerge_some (h : Str) (l : List Str) :
    ((heldMerge (some h) l).1).isSome = true := by
  cases l with
  | nil => rfl
  | cons s rest =>
    by_cases hw : wc s ≤ MERGE_IF_WORDS
    · simp [heldMerge, if_pos hw]
    · simp [heldMerge, if_neg hw]

theorem feedDelta_inv (st : SegState) (chunk : Str) (h : segInv st) :
    segInv (feedDelta st chunk) := by
  obtain ⟨buffer, held, isFirst, submitted⟩ := st
  simp only [feedDelta, segInv] at h ⊢
  have hOK : sentOK (splitSentences (buffer ++ chunk)).1 := splitSentences_ok _
  have hmg : mergeShort (splitSentences (buffer ++ chunk)).1
      = (splitSentences (buffer ++ chunk)).1 := mergeShort_id _ hOK
  rw [hmg]
  have hloop : loopOK isFirst (heldMerge held (splitSentences (buffer ++ chunk)).1).2 :=
    loopOK_heldMerge held _ isFirst hOK h
  by_cases hne : (heldMerge held (splitSentences (buffer ++ chunk)).1).2 = []
  · rw [hne]
    simp only [senLoop]
    cases held with
    | none =>
      rcases h with hf | hcontra
      · simp only [heldMerge]
        exact Or.inl hf
      · simp at hcontra
    | some hd =>
      exact Or.inr (heldMerge_some hd _)
  · exact Or.inr (senLoop_post _ _ _ _ hloop hne)

theorem feedDelta_content (st : SegState) (chunk : Str) (h : segInv st) :
    segContent (feedDelta st chunk) = segContent st ++ noWs chunk := by
  obtain ⟨buffer, held, isFirst, submitted⟩ := st
  simp only [feedDelta, segContent, segInv] at h ⊢
  have hOK : sentOK (splitSentences (buffer ++ chunk)).1 := splitSentences_ok _
  have hmg : mergeShort (splitSentences (buffer ++ chunk)).1
      = (splitSentences (buffer ++ chunk)).1 := mergeShort_id _ hOK
  rw [hmg]
  have hloop : loopOK isFirst (heldMerge held (splitSentences (buffer ++ chunk)).1).2 :=
    loopOK_heldMerge held _ isFirst hOK h
  have h1 := senLoop_content (heldMerge held (splitSentences (buffer ++ chunk)).1).2
    (heldMerge held (splitSentences (buffer ++ chunk)).1).1 isFirst submitted hloop
  have h2 := heldMerge_content held (splitSentences (buffer ++ chunk)).1
  have h3 := splitSentences_content (buffer ++ chunk)
  calc noWs (flat (senLoop (heldMerge held (splitSentences (buffer ++ chunk)).1).1
          isFirst submitted (heldMerge held (splitSentences (buffer ++ chunk)).1).2).2.2)
        ++ noWsOpt (senLoop (heldMerge held (splitSentences (buffer ++ chunk)).1).1
          isFirst submitted (heldMerge held (splitSentences (buffer ++ chunk)).1).2).1
        ++ noWs (splitSentences (buffer ++ chunk)).2
      = (noWs (flat submitted)
          ++ noWsOpt (heldMerge held (splitSentences (buffer ++ chunk)).1).1
          ++ noWs (flat (heldMerge held (splitSentences (buffer ++ chunk)).1).2))
          ++ noWs (splitSentences (buffer ++ chunk)).2 := by rw [h1]
    _ = noWs (flat submitted)
          ++ ((noWsOpt (heldMerge held (splitSentences (buffer ++ chunk)).1).1
            ++ noWs (flat (heldMerge held (splitSentences (buffer ++ chunk)).1).2))
          ++ noWs (splitSentences (buffer ++ chunk)).2) := by
            simp [List.append_assoc]
    _ = noWs (flat submitted)
          ++ ((noWsOpt held ++ noWs (flat (splitSentences (buffer ++ chunk)).1))
          ++ noWs (splitSentences (buffer ++ chunk)).2) := by rw [h2]
    _ = noWs (flat submitted)
          ++ (noWsOpt held ++ (noWs (flat (splitSentences (buffer ++ chunk)).1)
          ++ noWs (splitSentences (buffer ++ chunk)).2)) := by
            simp [List.append_assoc]
    _ = noWs (flat submitted) ++ (noWsOpt held ++ noWs (buffer ++ chunk)) := by rw [h3]
    _ = noWs (flat submitted) ++ noWsOpt held ++ noWs buffer ++ noWs chunk := by
          rw [noWs_append]
          simp [List.append_assoc]

theorem flushSeg_content (st : SegState) :
    noWs (flat (flushSeg st)) = segContent st := by
  obtain ⟨buffer, held, isFirst, submitted⟩ := st
  simp only [flushSeg, segContent]
  cases held with
  | some h =>
    dsimp only [noWsOpt]
    by_cases hc : ¬(strip buffer).isEmpty ∧ wc (strip buffer) ≤ MERGE_IF_WORDS
    · rw [if_pos hc, submitTo_content, noWs_strip, noWs_space, noWs_strip]
      simp [List.append_assoc]
    · rw [if_neg hc]
      by_cases hrem : (strip buffer).isEmpty
      · have hz : ¬¬(strip buffer).isEmpty = true := by simp [hrem]
        rw [if_neg hz, submitTo_content]
        have hb : noWs buffer = [] := noWs_of_strip_nil buffer (List.isEmpty_iff.mp hrem)
        simp [hb]
      · have hz : ¬(strip buffer).isEmpty = true := hrem
        rw [if_pos hz, submitTo_content, submitTo_content, noWs_strip]
  | none =>
    dsimp only [noWsOpt]
    by_cases hrem : (strip buffer).isEmpty
    · have hz : ¬¬(strip buffer).isEmpty = true := by simp [hrem]
      rw [if_neg hz]
      have hb : noWs buffer = [] := noWs_of_strip_nil buffer (List.isEmpty_iff.mp hrem)
      simp [hb]
    · have hz : ¬(strip buffer).isEmpty = true := hrem
      rw [if_pos hz, submitTo_content, noWs_strip]
      simp [List.append_assoc]

theorem foldl_feedDelta (deltas : List Str) : ∀ st : SegState, segInv st →
    segInv (deltas.foldl feedDelta st) ∧
    segContent (deltas.foldl feedDelta st) = segContent st ++ noWs (flat deltas) := by
  induction deltas with
  | nil =>
    intro st h
    exact ⟨h, by simp [flat_nil, noWs_nil]⟩
  | cons d rest ih =>
    intro st h
    simp only [List.foldl_cons]
    obtain ⟨h1, h2⟩ := ih (feedDelta st d) (feedDelta_inv st d h)
    refine ⟨h1, ?_⟩
    rw [h2, feedDelta_content st d h, flat_cons, noWs_append, List.append_assoc]

/-- Claim C3: for every fixed sequence of text deltas fed to a fresh segmenter
followed by the end-of-stream flush, the concatenation of all emitted sentence
texts equals the concatenation of the input deltas modulo whitespace: no text
is lost and none is duplicated. -/
theorem segmenter_text_conservation (deltas : List Str) :
    noWs (flat (runSegmenter deltas)) = noWs (flat deltas) := by
  unfold runSegmenter
  rw [flushSeg_content, (foldl_feedDelta deltas initSeg (Or.inl rfl)).2]
  simp [segContent, initSeg, flat_nil, noWs_nil, noWsOpt]

-- Claim C4: the short-fragment merge example -----------------------------------

/-- Claim C4, counterexample: feeding "Ok. ", "Go. ", "This is a longer
sentence. " to a fresh segmenter followed by flush does NOT emit the single
sentence "Ok. Go. This is a longer sentence." claimed by the specification. -/
theorem short_fragment_merge_counterexample :
    runSegmenter [str "Ok. ", str "Go. ", str "This is a longer sentence. "]
      ≠ [str "Ok. Go. This is a longer sentence."] := by
  decide

/-- Claim C4, amended: feeding "Ok. ", "Go. ", "This is a longer sentence. "
to a fresh segmenter followed by flush emits exactly two sentences,
"Ok. Go." and "This is a longer sentence.": the two short leading fragments
merge with each other, but they do not collapse forward into the following
longer sentence. -/
theorem short_fragment_merge_amended :
    runSegmenter [str "Ok. ", str "Go. ", str "This is a longer sentence. "]
      = [str "Ok. Go.", str "This is a longer sentence."] := by
  rfl

-- Speech dispatch and _drain_ready (main.py lines 303-320) ----------------------

/-- State of one synthesis future: still running, finished with audio bytes,
or finished with an exception. -/
inductive JobStatus where
  | pending
  | completed (audio : Str)
  | failed
deriving DecidableEq

/-- One entry of `audio_queue`: the future and its source sentence, plus the
ghost submission index used to state ordering. -/
structure DJob where
  idx : Nat
  sentence : Str
  status : JobStatus
deriving DecidableEq

/-- `audio_queue[0][0].done()`: the head future has finished (with either
result or exception). -/
def isDone (j : DJob) : Bool :=
  match j.status with
  | .pending => false
  | _ => true

/-- The audio event produced for one successfully synthesized sentence. -/
structure AudioEvent where
  idx : Nat
  audio : Str
  sentence : Str
deriving DecidableEq

/-- The event produced when a finished job is popped: on success an audio
event, on failure the job is logged and dropped (lines 313-319). -/
def eventOf (j : DJob) : Option AudioEvent :=
  match j.status with
  | .completed a => some ⟨j.idx, a, j.sentence⟩
  | _ => none

/-- _drain_ready (lines 310-320): pop jobs from the head of the FIFO queue
while the head future is done, producing an event per success and nothing per
failure, and stop at the first still-pending head job. -/
def drainReady : List DJob → List AudioEvent × List DJob
  | [] => ([], [])
  | j :: rest =>
    match j.status with
    | .pending => ([], j :: rest)
    | .completed a =>
      ((⟨j.idx, a, j.sentence⟩ : AudioEvent) :: (drainReady rest).1, (drainReady rest).2)
    | .failed => drainReady rest

/-- Operations on the dispatcher observable from the generator: _submit of a
sentence, completion of an in-flight future (at any time, in any order --
the adversarial synthesis schedule) and a _drain_ready call. -/
inductive DispatchOp where
  | submit (sentence : Str)
  | complete (idx : Nat) (outcome : Option Str)
  | drain

/-- Dispatcher state: the FIFO `audio_queue`, the ghost next submission index
and the audio events yielded so far. -/
structure DispatchState where
  queue : List DJob
  nextIdx : Nat
  events : List AudioEvent

/-- One step of the dispatcher: _submit ignores whitespace-only text and
appends a pending job at the tail (line 305-308); a completion updates the
status of the matching future; _drain_ready pops the done prefix. -/
def dispatchStep (st : DispatchState) : DispatchOp → DispatchState
  | .submit s =>
    if (strip s).isEmpty then st
    else
      { queue := st.queue ++ [⟨st.nextIdx, s, .pending⟩]
        nextIdx := st.nextIdx + 1
        events := st.events }
  | .complete i out =>
    { st with
        queue := st.queue.map (fun j =>
          if j.idx = i then
            { j with status := match out with
                | some a => .completed a
                | none => .failed }
          else j) }
  | .drain =>
    { queue := (drainReady st.queue).2
      nextIdx := st.nextIdx
      events := st.events ++ (drainReady st.queue).1 }

/-- A dispatcher run from the empty queue over an arbitrary schedule. -/
def runDispatcher (ops : List DispatchOp) : DispatchState :=
  ops.foldl dispatchStep ⟨[], 0, []⟩

theorem drainReady_spec (q : List DJob) :
    drainReady q = ((q.takeWhile isDone).filterMap eventOf, q.dropWhile isDone) := by
  induction q with
  | nil => rfl
  | cons j rest ih =>
    cases hs : j.status with
    | pending =>
      have hd : isDone j = false := by simp [isDone, hs]
      simp [drainReady, hs, List.takeWhile_cons, List.dropWhile_cons, hd]
    | completed a =>
      have hd : isDone j = true := by simp [isDone, hs]
      simp [drainReady, hs, List.takeWhile_cons, List.dropWhile_cons, hd, ih,
        eventOf]
    | failed =>
      have hd : isDone j = true := by simp [isDone, hs]
      simp [drainReady, hs, List.takeWhile_cons, List.dropWhile_cons, hd, ih,
        eventOf]

-- FIFO ordering invariant of the dispatcher ------------------------------------

/-- Submission indices observable outside the pool: indices of the yielded
events followed by the indices of the jobs still in the queue. -/
def observedIdxs (st : DispatchState) : List Nat :=
  st.events.map AudioEvent.idx ++ st.queue.map DJob.idx

/-- Invariant: the observed indices are strictly increasing, and all are below
the next submission index. -/
def dispatchInv (st : DispatchState) : Prop :=
  List.Pairwise (· < ·) (observedIdxs st) ∧ ∀ i ∈ observedIdxs st, i < st.nextIdx

theorem filterMap_eventOf_idx_sublist (l : List DJob) :
    ((l.filterMap eventOf).map AudioEvent.idx).Sublist (l.map DJob.idx) := by
  induction l with
  | nil => exact List.Sublist.refl _
  | cons j rest ih =>
    cases hs : j.status with
    | pending =>
      simp only [List.filterMap_cons, eventOf, hs, List.map_cons]
      exact ih.cons _
    | completed a =>
      simp only [List.filterMap_cons, eventOf, hs, List.map_cons]
      exact ih.cons₂ _
    | failed =>
      simp only [List.filterMap_cons, eventOf, hs, List.map_cons]
      exact ih.cons _

theorem dispatchStep_inv (st : DispatchState) (op : DispatchOp)
    (h : dispatchInv st) : dispatchInv (dispatchStep st op) := by
  obtain ⟨hpair, hbound⟩ := h
  cases op with
  | submit s =>
    by_cases hemp : (strip s).isEmpty
    · simpa [dispatchStep, hemp] using ⟨hpair, hbound⟩
    · simp only [dispatchStep, if_neg hemp]
      constructor
      · simp only [observedIdxs, List.map_append, List.map_cons, List.map_nil,
          ← List.append_assoc]
        rw [List.pairwise_append]
        refine ⟨hpair, List.pairwise_singleton .., ?_⟩
        intro a ha b hb
        rw [List.mem_singleton] at hb
        subst hb
        exact hbound a ha
      · intro i hi
        simp only [observedIdxs, List.map_append, List.map_cons, List.map_nil,
          ← List.append_assoc] at hi
        rcases List.mem_append.mp hi with hi | hi
        · exact Nat.lt_succ_of_lt (hbound i hi)
        · rw [List.mem_singleton] at hi
          subst hi
          exact Nat.lt_succ_self _
  | complete i out =>
    have hidx : (st.queue.map (fun j =>
        if j.idx = i then
          { j with status := match out with
              | some a => JobStatus.completed a
              | none => JobStatus.failed }
        else j)).map DJob.idx = st.queue.map DJob.idx := by
      rw [List.map_map]
      refine List.map_congr_left ?_
      intro j _
      by_cases hj : j.idx = i
      · simp [hj]
      · simp [hj]
    constructor
    · simpa [dispatchStep, observedIdxs, hidx] using hpair
    · intro x hx
      simp only [dispatchStep, observedIdxs, hidx] at hx
      exact hbound x hx
  | drain =>
    have hsub : (observedIdxs (dispatchStep st .drain)).Sublist (observedIdxs st) := by
      simp only [dispatchStep, observedIdxs, drainReady_spec, List.map_append,
        List.append_assoc]
      refine List.Sublist.append_left ?_ _
      have := List.Sublist.append (filterMap_eventOf_idx_sublist (st.queue.takeWhile isDone))
        (List.Sublist.refl ((st.queue.dropWhile isDone).map DJob.idx))
      calc ((st.queue.takeWhile isDone).filterMap eventOf).map AudioEvent.idx
            ++ (st.queue.dropWhile isDone).map DJob.idx
          |>.Sublist ((st.queue.takeWhile isDone).map DJob.idx
            ++ (st.queue.dropWhile isDone).map DJob.idx) := this
        _ = st.queue.map DJob.idx := by
            rw [← List.map_append, List.takeWhile_append_dropWhile]
    constructor
    · exact hpair.sublist hsub
    · intro x hx
      exact hbound x (hsub.mem hx)

theorem runDispatcher_inv (ops : List DispatchOp) : dispatchInv (runDispatcher ops) := by
  have base : dispatchInv ⟨[], 0, []⟩ := by
    constructor
    · simp [observedIdxs]
    · intro i hi
      simp [observedIdxs] at hi
  unfold runDispatcher
  induction ops using List.reverseRecOn with
  | nil => exact base
  | append_singleton l op ih =>
    rw [List.foldl_append, List.foldl_cons, List.foldl_nil]
    exact dispatchStep_inv _ op ih

/-- Claim C2: for every schedule of submissions, adversarially ordered
synthesis completions and drain calls, the yielded audio events are in strict
submission order, an event is never yielded while an earlier-submitted job is
still in the queue (unresolved), and _drain_ready pops exactly the finished
prefix of the FIFO queue, stopping at the first still-pending head job. -/
theorem drain_order_matches_submission_order (ops : List DispatchOp) :
    List.Pairwise (· < ·) ((runDispatcher ops).events.map AudioEvent.idx) ∧
    (∀ e ∈ (runDispatcher ops).events, ∀ j ∈ (runDispatcher ops).queue, e.idx < j.idx) ∧
    (∀ q : List DJob,
      drainReady q = ((q.takeWhile isDone).filterMap eventOf, q.dropWhile isDone)) := by
  obtain ⟨hpair, _⟩ := runDispatcher_inv ops
  rw [observedIdxs, List.pairwise_append] at hpair
  obtain ⟨hev, _, hcross⟩ := hpair
  refine ⟨hev, ?_, drainReady_spec⟩
  intro e he j hj
  exact hcross e.idx (List.mem_map_of_mem _ he) j.idx (List.mem_map_of_mem _ hj)

-- PyError and with_retry (app/utils/retry.py) ----------------------------------

/-- Exceptions of the embedded services. -/
inductive PyError where
  | attributeError (msg : Str)
  | providerFailure (msg : Str)
  | typeError (msg : Str)
  | validationError (msg : Str)
  | allGroqApisFailed (msg : Str) (cause : Option PyError)

/-- with_retry(fn, max_retries, initial_delay) (retry.py lines 9-37): invoke
the operation up to max_retries times, re-raising the last failure unchanged
on exhaustion. The operation is modelled as its outcome per attempt number;
the backoff sleeps only affect timing, not the result. -/
def withRetry (fn : Nat → Except PyError Str) : Nat → Nat → Except PyError Str
  | _, 0 => .error (.typeError (str "exceptions must derive from BaseException"))
  | attempt, 1 => fn attempt
  | attempt, n + 2 =>
    match fn attempt with
    | .ok v => .ok v
    | .error _ => withRetry fn (attempt + 1) (n + 1)

-- GroqService._invoke_llm (groq_service.py lines 72-122) ------------------------

/-- ALL_APIS_FAILED_MESSAGE (groq_service.py lines 19-22): two adjacent Python
string literals, so "are" and "temporarily" are joined without a space. -/
def ALL_APIS_FAILED_MESSAGE : Str :=
  str "I\x27m unable to process your request at the movement. All API services aretemporarily unavailable. Please Try again in a few minutes"

/-- The service state: one entry per configured credential, giving the
semantic outcome that `(prompt | self.llms[i]).invoke(...)` would produce for
that credential with the current prompt. The constructor requires at least
one key (lines 55-58), so runs of interest have a non-empty list. -/
structure GroqService where
  llms : List (Except PyError Str)

/-- The body of `_invoke_with_key` (lines 88-92): the source reads
`chain = prompt | self.llm[i]`, but the constructor only defines the
attribute `llms` (line 60), so the attribute lookup `self.llm` raises
AttributeError before the provider for key i is ever consulted — whatever
the provider outcome for that credential would have been. -/
def GroqService.invokeWithKey (_svc : GroqService) (_i : Nat) : Except PyError Str :=
  .error (.attributeError (str "GroqService object has no attribute llm"))

/-- The fallback loop of _invoke_llm over the remaining credentials
(lines 83-117), threading `last_exc`: each credential is tried under
with_retry(max_retries=2); on success the content is returned, on failure the
loop continues, and after the last credential the loop breaks. -/
def invokeLlmLoop (svc : GroqService) : List Nat → Option PyError → Except PyError Str
  | [], last => .error (.allGroqApisFailed ALL_APIS_FAILED_MESSAGE last)
  | i :: rest, _last =>
    match withRetry (fun _ => svc.invokeWithKey i) 0 2 with
    | .ok v => .ok v
    | .error e => invokeLlmLoop svc rest (some e)

/-- _invoke_llm (lines 72-122): try the credentials in order 0..n-1; if every
attempt fails, raise AllGroqApisFailedError(ALL_APIS_FAILED_MESSAGE) chained
from the last exception. -/
def GroqService.invokeLlm (svc : GroqService) : Except PyError Str :=
  invokeLlmLoop svc (List.range svc.llms.length) none

/-- Recognizer for the distinguished all-upstream-failed error. -/
def isAllFailed : PyError → Bool
  | .allGroqApisFailed _ _ => true
  | _ => false

/-- Claim C1: the specification says that with 3 configured credentials where
the provider calls for credentials 1 and 2 fail and credential 3 succeeds,
invoke returns credential 3's text. In the code `_invoke_with_key` reads
`self.llm[i]` while the attribute is named `llms`, so every per-credential
attempt dies with AttributeError before reaching the provider, and invoke
raises the all-upstream-failed error instead of returning credential 3's
result — evaluated here at exactly the claimed failing configuration. -/
theorem fallback_third_credential_bug :
    GroqService.invokeLlm
        ⟨[.error (.providerFailure (str "boom1")),
          .error (.providerFailure (str "boom2")),
          .ok (str "credential 3 result")]⟩
      = .error (.allGroqApisFailed ALL_APIS_FAILED_MESSAGE
          (some (.attributeError (str "GroqService object has no attribute llm"))))
    ∧ GroqService.invokeLlm
        ⟨[.error (.providerFailure (str "boom1")),
          .error (.providerFailure (str "boom2")),
          .ok (str "credential 3 result")]⟩
      ≠ .ok (str "credential 3 result") := by
  constructor
  · rfl
  · intro hcontra
    have h1 : GroqService.invokeLlm
        ⟨[.error (.providerFailure (str "boom1")),
          .error (.providerFailure (str "boom2")),
          .ok (str "credential 3 result")]⟩
      = .error (.allGroqApisFailed ALL_APIS_FAILED_MESSAGE
          (some (.attributeError (str "GroqService object has no attribute llm")))) := rfl
    rw [h1] at hcontra
    exact Except.noConfusion hcontra

/-- Claim C5: if the underlying provider call fails for every configured
credential, invoke raises the distinguished all-upstream-failed error carrying
the fixed user-facing message, with the last raised failure attached only as
the chained cause, not the raw exception itself. -/
theorem all_fail_raises_distinguished_error (svc : GroqService)
    (hne : svc.llms ≠ [])
    (_hfail : ∀ p ∈ svc.llms, ∃ e, p = Except.error e) :
    ∃ cause, svc.invokeLlm
      = .error (.allGroqApisFailed ALL_APIS_FAILED_MESSAGE (some cause)) := by
  refine ⟨.attributeError (str "GroqService object has no attribute llm"), ?_⟩
  unfold GroqService.invokeLlm
  have hlen : svc.llms.length ≠ 0 := fun h => hne (List.length_eq_zero.mp h)
  obtain ⟨n, hn⟩ : ∃ n, svc.llms.length = n + 1 :=
    ⟨svc.llms.length - 1, by omega⟩
  rw [hn]
  have : ∀ (m : Nat) (start : List Nat) (last : Option PyError),
      invokeLlmLoop svc (start ++ [m]) last
        = .error (.allGroqApisFailed ALL_APIS_FAILED_MESSAGE
            (some (.attributeError (str "GroqService object has no attribute llm")))) := by
    intro m start
    induction start with
    | nil =>
      intro _
      rfl
    | cons i rest ih =>
      intro _
      rw [List.cons_append]
      exact ih _
  have hr : List.range (n + 1) = List.range n ++ [n] := List.range_succ n
  rw [hr]
  exact this n (List.range n) none

/-- Witness for Claim C5 at one failing credential. -/
theorem all_fail_raises_distinguished_error_witness :
    ∃ cause, GroqService.invokeLlm ⟨[.error (.providerFailure (str "x"))]⟩
      = .error (.allGroqApisFailed ALL_APIS_FAILED_MESSAGE (some cause)) :=
  all_fail_raises_distinguished_error ⟨[.error (.providerFailure (str "x"))]⟩
    (List.cons_ne_nil _ _)
    (by intro p hp; exact ⟨.providerFailure (str "x"), by simpa using hp⟩)

-- ChatService (app/services/chat_service.py) ------------------------------------

/-- ChatMessage (app/models.py lines 5-8): a pydantic model whose `role` and
`content` fields are both declared `str` — pydantic rejects a None content at
construction time (see chatMessageOfPy). -/
structure ChatMessage where
  role : Str
  content : Str
deriving DecidableEq

/-- The JSON document written by save_chat_session (lines 205-208). -/
structure SavedChat where
  session_id : Str
  messages : List ChatMessage
deriving DecidableEq

/-- In-memory session registry (`self.sessions`) plus the durable chat
directory, modelled as association lists keyed by session id and file name. -/
structure CSState where
  sessions : List (Str × List ChatMessage)
  disk : List (Str × SavedChat)
deriving DecidableEq

/-- Python dict lookup: first (most recent) binding wins. -/
def lookupAssoc {α : Type} (l : List (Str × α)) (k : Str) : Option α :=
  (l.find? (fun p => p.1 == k)).map (fun p => p.2)

/-- Disk and registry touches, used to state that rejection happens before
any access. -/
inductive Access where
  | diskRead
  | diskWrite
  | regRead
  | regWrite
deriving DecidableEq

/-- `".." in session_id`. -/
def hasDotDot : Str → Bool
  | '.' :: '.' :: _ => true
  | _ :: rest => hasDotDot rest
  | [] => false

/-- validate_session_id (lines 49-59): a session id is rejected when empty or
whitespace-only, when it contains "..", "/" or a backslash, or when longer
than 255 characters. -/
def validateSessionId (s : Str) : Bool :=
  if s.isEmpty || (strip s).isEmpty then false
  else if hasDotDot s || s.any (fun c => c = '/') || s.any (fun c => c = '\\') then false
  else if 255 < s.length then false
  else true

/-- `session_id.replace("-","").replace(" ","_")` (line 25 and line 202). -/
def safeSessionId (s : Str) : Str :=
  (s.filter (fun c => c ≠ '-')).map (fun c => if c = ' ' then '_' else c)

/-- `f"chat_{safe_session_id}.json"`. -/
def chatFilename (sid : Str) : Str :=
  str "chat_" ++ safeSessionId sid ++ str ".json"

/-- load_session_from_disk (lines 24-47): look the file up (an existence check
plus read), rebuild the messages from the parsed JSON and install them in the
registry; a miss leaves the registry untouched and reports False. -/
def loadSessionFromDisk (st : CSState) (sid : Str) : Bool × CSState × List Access :=
  match lookupAssoc st.disk (chatFilename sid) with
  | none => (false, st, [.diskRead])
  | some saved =>
    (true, { st with sessions := (sid, saved.messages) :: st.sessions },
     [.diskRead, .regWrite])

/-- The ValueError message of get_or_create_session (lines 71-74); two
adjacent literals join "non-empty," and "not" without a space. -/
def invalidSessionMessage (s : Str) : Str :=
  str "Invalid session_id format: " ++ s
    ++ str ". Session ID must be non-empty,not contain path traversal characters, and be under 255 character."

/-- get_or_create_session (lines 61-86): a falsy (missing or empty) id creates
a fresh session; an id failing validation raises ValueError before any disk or
registry access; otherwise memory is consulted, then disk, then a new empty
session is created under the requested id. -/
def getOrCreateSession : CSState → Option Str → Str →
    Except Str Str × CSState × List Access
  | st, none, freshId =>
    (.ok freshId, { st with sessions := (freshId, []) :: st.sessions }, [.regWrite])
  | st, some s, freshId =>
    if s.isEmpty then
      (.ok freshId, { st with sessions := (freshId, []) :: st.sessions }, [.regWrite])
    else if validateSessionId s = false then
      (.error (invalidSessionMessage s), st, [])
    else if (lookupAssoc st.sessions s).isSome then (.ok s, st, [.regRead])
    else
      match loadSessionFromDisk st s with
      | (true, st2, tr) => (.ok s, st2, .regRead :: tr)
      | (false, st2, tr) =>
        (.ok s, { st2 with sessions := (s, []) :: st2.sessions },
         .regRead :: tr ++ [.regWrite])

/-- get_chat_history (lines 95-96): `self.sessions.get(session_id, [])` — a
plain registry read with no validation. -/
def getChatHistory (st : CSState) (sid : Str) : List ChatMessage × List Access :=
  ((lookupAssoc st.sessions sid).getD [], [.regRead])

/-- The message pydantic raises when ChatMessage is constructed with a None
content (abbreviated from the multi-line pydantic ValidationError text). -/
def PYDANTIC_CONTENT_ERROR : Str :=
  str "1 validation error for ChatMessage: content: Input should be a valid string"

/-- The pydantic constructor `ChatMessage(role=role, content=content)`
(models.py lines 5-8): `content` is declared `str`, so passing None raises
ValidationError; a string is accepted as is. -/
def chatMessageOfPy (role : Str) : Option Str → Except PyError ChatMessage
  | some c => .ok ⟨role, c⟩
  | none => .error (.validationError PYDANTIC_CONTENT_ERROR)

/-- add_message (lines 89-93): construct the pydantic ChatMessage — which can
raise ValidationError — and append it to the session; on the raise the
registry is left unchanged. -/
def addMessage (st : CSState) (sid : Str) (role : Str) (content : Option Str) :
    Except PyError CSState :=
  match chatMessageOfPy role content with
  | .error e => .error e
  | .ok m =>
    .ok { st with sessions :=
        (sid, ((lookupAssoc st.sessions sid).getD []) ++ [m]) :: st.sessions }

/-- save_chat_session (lines 197-217): nothing is written when the session is
absent or empty; otherwise the turn list is serialized to the per-session
file (overwriting it). -/
def saveChatSession (st : CSState) (sid : Str) : CSState × List Access :=
  match lookupAssoc st.sessions sid with
  | none => (st, [.regRead])
  | some msgs =>
    if msgs.isEmpty then (st, [.regRead])
    else
      ({ st with disk := (chatFilename sid, ⟨sid, msgs⟩) :: st.disk },
       [.regRead, .diskWrite])

-- Claim C8: invalid session ids -------------------------------------------------

/-- Claim C8, counterexample: get_chat_history performs a registry read and
returns normally for the invalid session id ".." (no rejection), and
get_or_create_session called with an empty id does not reject either — it
creates a fresh session, writing the registry. -/
theorem invalid_session_counterexample :
    getChatHistory ⟨[], []⟩ (str "..") = ([], [Access.regRead])
    ∧ validateSessionId (str "..") = false
    ∧ getOrCreateSession ⟨[], []⟩ (some []) (str "fresh")
        = (.ok (str "fresh"), ⟨[(str "fresh", [])], []⟩, [Access.regWrite]) := by
  refine ⟨rfl, rfl, rfl⟩

/-- Claim C8, amended: get_or_create_session rejects every NON-EMPTY session
id that fails validation (containing "..", "/" or a backslash, whitespace-only,
or longer than 255 characters) with the invalid-session ValueError before any
disk access or any read or write of the registry; an empty id instead silently
creates a fresh session, and get_chat_history performs its registry read
without any validation. -/
theorem invalid_session_rejected_before_access (st : CSState) (s : Str)
    (freshId : Str) (hne : s ≠ []) (hinv : validateSessionId s = false) :
    getOrCreateSession st (some s) freshId
      = (.error (invalidSessionMessage s), st, []) := by
  have hemp : s.isEmpty = false := by
    cases s with
    | nil => exact absurd rfl hne
    | cons a t => rfl
  simp only [getOrCreateSession]
  rw [if_neg (by simp [hemp]), if_pos hinv]

/-- Witness for the amended Claim C8 at the session id "a/b". -/
theorem invalid_session_rejected_before_access_witness :
    (str "a/b") ≠ [] ∧ validateSessionId (str "a/b") = false
    ∧ getOrCreateSession ⟨[], []⟩ (some (str "a/b")) (str "f")
        = (.error (invalidSessionMessage (str "a/b")), ⟨[], []⟩, []) :=
  ⟨by decide, by decide,
   invalid_session_rejected_before_access ⟨[], []⟩ (str "a/b") (str "f")
     (by decide) (by decide)⟩

-- Claim C9: save/load roundtrip -------------------------------------------------

/-- Claim C9: for every valid session id and turn list, saving the session to
the (initially empty) durable store and loading that id into a fresh empty
registry reproduces exactly the saved ordered turn list (an empty turn list is
never written, and reading it back accordingly yields the empty history). -/
theorem session_save_load_roundtrip (sid : Str) (turns : List ChatMessage)
    (_hvalid : validateSessionId sid = true) :
    (lookupAssoc
        ((loadSessionFromDisk
            ⟨[], ((saveChatSession ⟨[(sid, turns)], []⟩ sid).1).disk⟩ sid).2.1).sessions
        sid).getD []
      = turns := by
  cases turns with
  | nil =>
    simp [saveChatSession, loadSessionFromDisk, lookupAssoc, List.find?]
  | cons t ts =>
    simp [saveChatSession, loadSessionFromDisk, lookupAssoc, List.find?]

/-- Witness for Claim C9 at a concrete session. -/
theorem session_save_load_roundtrip_witness :
    validateSessionId (str "abc") = true
    ∧ (lookupAssoc
        ((loadSessionFromDisk
            ⟨[], ((saveChatSession
              ⟨[(str "abc", [⟨str "user", str "hi"⟩])], []⟩ (str "abc")).1).disk⟩
          (str "abc")).2.1).sessions
        (str "abc")).getD []
      = [⟨str "user", str "hi"⟩] :=
  ⟨by decide, session_save_load_roundtrip (str "abc") [⟨str "user", str "hi"⟩]
    (by decide)⟩

-- Claim C6: periodic saves during streaming (chat_service.py lines 141-194) -----

/-- SAVE_EVERY_N_CHUNKS = 5 (line 15). -/
def SAVE_EVERY_N_CHUNKS : Nat := 5

/-- Persistence-relevant state of one general streaming call: the growing
last assistant turn, the chunk counter, and the assistant content most
recently written to disk (none when no save has happened). -/
structure PMSState where
  content : Str
  chunkCount : Nat
  savedContent : Option Str
deriving DecidableEq

/-- One loop iteration of process_message_stream (lines 151-161): append the
chunk to the last assistant turn, bump chunk_count, and save the session when
chunk_count is a multiple of SAVE_EVERY_N_CHUNKS. -/
def pmsStep (st : PMSState) (chunk : Str) : PMSState :=
  if (st.chunkCount + 1) % SAVE_EVERY_N_CHUNKS = 0 then
    ⟨st.content ++ chunk, st.chunkCount + 1, some (st.content ++ chunk)⟩
  else ⟨st.content ++ chunk, st.chunkCount + 1, st.savedContent⟩

/-- process_message_stream (lines 141-165) on a successfully exhausted
upstream stream: the finally block (lines 162-165) only logs the chunk count
and response length — it performs NO save, so the state after the loop is the
final state. -/
def processMessageStream (chunks : List Str) : PMSState :=
  chunks.foldl pmsStep ⟨[], 0, none⟩

/-- One loop iteration of process_realtime_message_stream (lines 180-190) for
a text chunk: `chunk_count` is never incremented in this method, so the
`chunk_count % SAVE_EVERY_N_CHUNKS == 0` test is always 0 % 5 == 0 and the
session is saved on every chunk. -/
def prmsStep (st : PMSState) (chunk : Str) : PMSState :=
  if st.chunkCount % SAVE_EVERY_N_CHUNKS = 0 then
    ⟨st.content ++ chunk, st.chunkCount, some (st.content ++ chunk)⟩
  else ⟨st.content ++ chunk, st.chunkCount, st.savedContent⟩

/-- process_realtime_message_stream (lines 167-194): after the loop, the
finally block (line 194) DOES save the session. -/
def processRealtimeMessageStream (chunks : List Str) : PMSState :=
  let st := chunks.foldl prmsStep ⟨[], 0, none⟩
  ⟨st.content, st.chunkCount, some st.content⟩

/-- Claim C6: the specification says every streaming request saves the turn
list every 5 deltas AND always performs a full save at stream completion. For
the general stream the periodic save is real, but process_message_stream's
finally block only logs — evaluated at a completed 7-chunk general stream, the
disk still holds only the first five chunks, so the full-save-at-completion
part of the claim fails on the code. (The realtime stream does save in its
finally block, but — chunk_count never being incremented — it also saves on
every single chunk rather than every 5.) -/
theorem general_stream_no_completion_save :
    (processMessageStream
        [str "a", str "b", str "c", str "d", str "e", str "f", str "g"]).savedContent
      = some (str "abcde")
    ∧ (processMessageStream
        [str "a", str "b", str "c", str "d", str "e", str "f", str "g"]).content
      = str "abcdefg"
    ∧ (processMessageStream
        [str "a", str "b", str "c", str "d", str "e", str "f", str "g"]).savedContent
      ≠ some (processMessageStream
        [str "a", str "b", str "c", str "d", str "e", str "f", str "g"]).content := by
  refine ⟨rfl, rfl, by decide⟩

-- Claim C10: realtime get_response returning None -------------------------------

/-- RealtimeGroqService.get_response (realtime_service.py lines 175-206): the
try block (query extraction, search, prompt build, model invocation) is
summarized by its outcome; `except AllGroqApisFailedError: raise` re-raises
only that error, and the final `except Exception` logs and falls off the end
of the function, returning None. -/
def realtimeGetResponse (tryBody : Except PyError Str) : Except PyError (Option Str) :=
  match tryBody with
  | .ok s => .ok (some s)
  | .error e => if isAllFailed e then .error e else .ok none

/-- ChatService.process_realtime_message (chat_service.py lines 129-139):
append the user turn, call the realtime service, then hand whatever it
returned to add_message as the assistant turn. When the realtime service
returned None, the pydantic ChatMessage construction inside add_message
raises ValidationError, so no assistant turn is stored and the subsequent
`len(response)` log line (line 138) is never reached; when it returned a
string, the turn is appended and the response returned. The registry mutated
so far survives a raise. -/
def processRealtimeMessage (st : CSState) (sid userMsg : Str)
    (rtOutcome : Except PyError (Option Str)) :
    CSState × Except PyError Str :=
  match addMessage st sid (str "user") (some userMsg) with
  | .error e => (st, .error e)
  | .ok st1 =>
    match rtOutcome with
    | .error e => (st1, .error e)
    | .ok resp =>
      match addMessage st1 sid (str "assistant") resp with
      | .error e => (st1, .error e)
      | .ok st2 => (st2, .ok (resp.getD []))

/-- Claim C10, counterexample: at a concrete non-all-upstream-failed failure,
get_response does return None (first conjunct), but the caller does NOT
append that None as an assistant turn and never measures its length: the
pydantic ChatMessage construction inside add_message raises ValidationError,
leaving the session with only the user turn. -/
theorem realtime_none_turn_counterexample :
    realtimeGetResponse (.error (.providerFailure (str "boom"))) = .ok none
    ∧ processRealtimeMessage ⟨[], []⟩ (str "s") (str "hi")
        (realtimeGetResponse (.error (.providerFailure (str "boom"))))
      = (⟨[(str "s", [⟨str "user", str "hi"⟩])], []⟩,
         .error (.validationError PYDANTIC_CONTENT_ERROR)) :=
  ⟨rfl, rfl⟩

/-- Claim C10, amended: when the realtime whole-response call fails with any
exception other than the all-upstream-failed error, get_response neither
raises nor returns text — it logs and returns None — and the caller receives
that None instead of a string; but appending it as the assistant turn raises
a pydantic ValidationError inside add_message (ChatMessage declares
`content: str`), so no assistant turn is stored and the response length is
never measured: the call ends with the ValidationError and the session holds
only the freshly appended user turn. -/
theorem realtime_error_returns_none (st : CSState) (sid userMsg : Str)
    (e : PyError) (hnotall : isAllFailed e = false) :
    realtimeGetResponse (.error e) = .ok none
    ∧ (processRealtimeMessage st sid userMsg (realtimeGetResponse (.error e))).2
        = .error (.validationError PYDANTIC_CONTENT_ERROR)
    ∧ (lookupAssoc
          (processRealtimeMessage st sid userMsg
            (realtimeGetResponse (.error e))).1.sessions sid).getD []
        = ((lookupAssoc st.sessions sid).getD [])
            ++ [⟨str "user", userMsg⟩] := by
  have h1 : realtimeGetResponse (.error e) = .ok none := by
    simp [realtimeGetResponse, hnotall]
  refine ⟨h1, ?_, ?_⟩
  · rw [h1]
    rfl
  · rw [h1]
    simp [processRealtimeMessage, addMessage, chatMessageOfPy, lookupAssoc,
      List.find?]

/-- Witness for the amended Claim C10 at a concrete provider failure. -/
theorem realtime_error_returns_none_witness :
    isAllFailed (.providerFailure (str "boom")) = false
    ∧ (realtimeGetResponse (.error (.providerFailure (str "boom"))) = .ok none
    ∧ (processRealtimeMessage ⟨[], []⟩ (str "s") (str "hi")
          (realtimeGetResponse (.error (.providerFailure (str "boom"))))).2
        = .error (.validationError PYDANTIC_CONTENT_ERROR)
    ∧ (lookupAssoc
          (processRealtimeMessage ⟨[], []⟩ (str "s") (str "hi")
            (realtimeGetResponse (.error (.providerFailure (str "boom"))))).1.sessions
          (str "s")).getD []
        = ((lookupAssoc (⟨[], []⟩ : CSState).sessions (str "s")).getD [])
            ++ [⟨str "user", str "hi"⟩]) :=
  ⟨rfl, realtime_error_returns_none ⟨[], []⟩ (str "s") (str "hi")
    (.providerFailure (str "boom")) rfl⟩

-- _stream_generator events and error handling (main.py lines 297-389) -----------

/-- The SSE records yielded by _stream_generator: the opening record, a text
delta, a side-channel search payload, an audio record, the terminal success
record and the terminal error record. -/
inductive SSEvent where
  | openEvt (sid : Str)
  | chunkEvt (s : Str)
  | searchEvt (payload : Str)
  | audioEvt (audio sentence : Str)
  | doneEvt (sid : Str)
  | errorEvt (msg : Str)
deriving DecidableEq

/-- Records carrying `done: true` (lines 365 and 389). -/
def isTerminal : SSEvent → Bool
  | .doneEvt _ => true
  | .errorEvt _ => true
  | _ => false

/-- One item of the upstream chunk iterator: a text delta, or the
`_search_results` dict passed through verbatim (lines 324-326). -/
inductive UpChunk where
  | text (s : Str)
  | search (payload : Str)

/-- The synthesis schedule, supplied adversarially: whether job i's future is
done at drain round t, the result it produces once done (none models a raised
exception), and the outcome of the 15-second `fut.result` wait during the
final flush (none models an exception or timeout). -/
structure RunCfg where
  done : Nat → Nat → Bool
  result : Nat → Option Str
  flushResult : Nat → Option Str

/-- State of one _stream_generator run: the segmentation state, the ghost
next job index, `audio_queue` (job index and sentence), the ghost list of
jobs already popped by a drain, and the events yielded so far. -/
structure GenState where
  buffer : Str
  held : Option Str
  isFirst : Bool
  nSub : Nat
  queue : List (Nat × Str)
  popped : List Nat
  events : List SSEvent

def natRange (a : Nat) : Nat → List Nat
  | 0 => []
  | n + 1 => a :: natRange (a + 1) n

/-- Jobs for freshly submitted sentences, numbered from n. -/
def indexFrom (n : Nat) : List Str → List (Nat × Str)
  | [] => []
  | s :: rest => (n, s) :: indexFrom (n + 1) rest

/-- _drain_ready on the indexed queue at one drain round: pop while the head
future is done, emit an audio record per success, nothing per failure, stop at
the first pending head. Returns (events, remaining queue, popped indices). -/
def drainQ (isDoneAt : Nat → Bool) (resultOf : Nat → Option Str) :
    List (Nat × Str) → List SSEvent × List (Nat × Str) × List Nat
  | [] => ([], [], [])
  | (i, s) :: rest =>
    if isDoneAt i then
      match resultOf i with
      | some a =>
        (SSEvent.audioEvt a s :: (drainQ isDoneAt resultOf rest).1,
         (drainQ isDoneAt resultOf rest).2.1,
         i :: (drainQ isDoneAt resultOf rest).2.2)
      | none =>
        ((drainQ isDoneAt resultOf rest).1,
         (drainQ isDoneAt resultOf rest).2.1,
         i :: (drainQ isDoneAt resultOf rest).2.2)
    else ([], (i, s) :: rest, [])

/-- One iteration of the for-loop over upstream chunks (lines 323-360): a
search dict is emitted verbatim; a text delta is emitted, then — with TTS
on — ready audio is drained and the delta fed to the segmenter, enqueueing
every newly submitted sentence. -/
def genStep (cfg : RunCfg) (tts : Bool) (t : Nat) (st : GenState) : UpChunk → GenState
  | .search p => { st with events := st.events ++ [.searchEvt p] }
  | .text s =>
    if tts = false then { st with events := st.events ++ [.chunkEvt s] }
    else
      let dr := drainQ (fun i => cfg.done i t) cfg.result st.queue
      let seg := feedDelta ⟨st.buffer, st.held, st.isFirst, []⟩ s
      { buffer := seg.buffer
        held := seg.held
        isFirst := seg.isFirst
        nSub := st.nSub + seg.submitted.length
        queue := dr.2.1 ++ indexFrom st.nSub seg.submitted
        popped := st.popped ++ dr.2.2
        events := st.events ++ [.chunkEvt s] ++ dr.1 }

def genLoop (cfg : RunCfg) (tts : Bool) : Nat → GenState → List UpChunk → GenState
  | _, st, [] => st
  | t, st, c :: rest => genLoop cfg tts (t + 1) (genStep cfg tts t st c) rest

/-- The final flush wait (lines 381-387): each remaining job is awaited in
FIFO order; success yields its audio record, an exception or timeout only
logs. -/
def flushEvents (cfg : RunCfg) : List (Nat × Str) → List SSEvent
  | [] => []
  | (i, s) :: rest =>
    match cfg.flushResult i with
    | some a => .audioEvt a s :: flushEvents cfg rest
    | none => flushEvents cfg rest

/-- A whole _stream_generator run. `chunks` are the upstream items consumed
before the iterator either raises (err = some msg: the except branch of lines
362-366 cancels every future still in audio_queue — returned as the second
component — and yields the terminal error record) or is exhausted (err =
none: the flush of lines 368-389 runs and the terminal done record is
yielded). -/
def genRun (cfg : RunCfg) (sid : Str) (tts : Bool) (chunks : List UpChunk) :
    Option Str → GenState × List (Nat × Str)
  | some m =>
    let stN := genLoop cfg tts 0 ⟨[], none, true, 0, [], [], [.openEvt sid]⟩ chunks
    ({ stN with events := stN.events ++ [.errorEvt m] }, stN.queue)
  | none =>
    let stN := genLoop cfg tts 0 ⟨[], none, true, 0, [], [], [.openEvt sid]⟩ chunks
    if tts then
      let fullQ := stN.queue ++ indexFrom stN.nSub
        (flushSeg ⟨stN.buffer, stN.held, stN.isFirst, []⟩)
      ({ stN with
          nSub := stN.nSub + (flushSeg ⟨stN.buffer, stN.held, stN.isFirst, []⟩).length
          queue := []
          popped := stN.popped ++ fullQ.map Prod.fst
          events := stN.events ++ flushEvents cfg fullQ ++ [.doneEvt sid] }, [])
    else ({ stN with events := stN.events ++ [.doneEvt sid] }, [])

-- Generator invariants and the C7 theorem ---------------------------------------

theorem natRange_append (m : Nat) : ∀ (a n : Nat),
    natRange a (m + n) = natRange a m ++ natRange (a + m) n := by
  induction m with
  | zero =>
    intro a n
    simp [natRange]
  | succ m ih =>
    intro a n
    have h1 : m + 1 + n = (m + n) + 1 := by omega
    have h2 : a + 1 + m = a + (m + 1) := by omega
    rw [h1]
    simp only [natRange, List.cons_append]
    rw [ih (a + 1) n, h2]

theorem indexFrom_map_fst : ∀ (l : List Str) (n : Nat),
    (indexFrom n l).map Prod.fst = natRange n l.length := by
  intro l
  induction l with
  | nil => intro n; rfl
  | cons s rest ih =>
    intro n
    simp only [indexFrom, List.map_cons, List.length_cons, natRange]
    rw [ih (n + 1)]

theorem drainQ_account (d : Nat → Bool) (r : Nat → Option Str) :
    ∀ q : List (Nat × Str),
    (drainQ d r q).2.2 ++ ((drainQ d r q).2.1).map Prod.fst = q.map Prod.fst := by
  intro q
  induction q with
  | nil => rfl
  | cons p rest ih =>
    obtain ⟨i, s⟩ := p
    by_cases hd : d i = true
    · cases hr : r i with
      | some a =>
        simp only [drainQ, if_pos hd, hr, List.map_cons, List.cons_append]
        rw [ih]
      | none =>
        simp only [drainQ, if_pos hd, hr, List.map_cons, List.cons_append]
        rw [ih]
    · simp only [drainQ, if_neg hd, List.map_cons]
      rfl

theorem drainQ_no_terminal (d : Nat → Bool) (r : Nat → Option Str) :
    ∀ q : List (Nat × Str), ((drainQ d r q).1).filter isTerminal = [] := by
  intro q
  induction q with
  | nil => rfl
  | cons p rest ih =>
    obtain ⟨i, s⟩ := p
    by_cases hd : d i = true
    · cases hr : r i with
      | some a =>
        simp only [drainQ, if_pos hd, hr, List.filter_cons]
        simpa [isTerminal] using ih
      | none =>
        simp only [drainQ, if_pos hd, hr]
        exact ih
    · simp only [drainQ, if_neg hd]
      rfl

theorem flushEvents_no_terminal (cfg : RunCfg) :
    ∀ q : List (Nat × Str), (flushEvents cfg q).filter isTerminal = [] := by
  intro q
  induction q with
  | nil => rfl
  | cons p rest ih =>
    obtain ⟨i, s⟩ := p
    cases hr : cfg.flushResult i with
    | some a =>
      simp only [flushEvents, hr, List.filter_cons]
      simpa [isTerminal] using ih
    | none =>
      simp only [flushEvents, hr]
      exact ih

/-- Invariant of the chunk loop: no terminal record has been yielded yet, and
every submitted job is either popped or still queued, in index order. -/
def genInv (st : GenState) : Prop :=
  st.events.filter isTerminal = []
  ∧ st.popped ++ st.queue.map Prod.fst = natRange 0 st.nSub

theorem genStep_inv (cfg : RunCfg) (tts : Bool) (t : Nat) (st : GenState)
    (c : UpChunk) (h : genInv st) : genInv (genStep cfg tts t st c) := by
  obtain ⟨hterm, hacct⟩ := h
  cases c with
  | search p =>
    refine ⟨?_, hacct⟩
    simp [genStep, List.filter_append, hterm, isTerminal]
  | text s =>
    by_cases htts : tts = false
    · refine ⟨?_, ?_⟩
      · simp [genStep, htts, List.filter_append, hterm, isTerminal]
      · simpa [genStep, htts] using hacct
    · have htts2 : tts = true := by
        cases tts
        · exact absurd rfl htts
        · rfl
      subst htts2
      constructor
      · simp only [genStep, Bool.true_eq_false, if_neg (by trivial : ¬True = False)]
        simp [List.filter_append, hterm, isTerminal,
          drainQ_no_terminal (fun i => cfg.done i t) cfg.result st.queue]
      · simp only [genStep]
        rw [if_neg (by simp)]
        simp only [List.map_append, indexFrom_map_fst]
        calc (st.popped ++ (drainQ (fun i => cfg.done i t) cfg.result st.queue).2.2)
              ++ (((drainQ (fun i => cfg.done i t) cfg.result st.queue).2.1).map Prod.fst
                ++ natRange st.nSub (feedDelta ⟨st.buffer, st.held, st.isFirst, []⟩ s).submitted.length)
            = st.popped ++ (((drainQ (fun i => cfg.done i t) cfg.result st.queue).2.2
                ++ ((drainQ (fun i => cfg.done i t) cfg.result st.queue).2.1).map Prod.fst)
                ++ natRange st.nSub (feedDelta ⟨st.buffer, st.held, st.isFirst, []⟩ s).submitted.length) := by
              simp [List.append_assoc]
          _ = st.popped ++ (st.queue.map Prod.fst
                ++ natRange st.nSub (feedDelta ⟨st.buffer, st.held, st.isFirst, []⟩ s).submitted.length) := by
              rw [drainQ_account]
          _ = (st.popped ++ st.queue.map Prod.fst)
                ++ natRange st.nSub (feedDelta ⟨st.buffer, st.held, st.isFirst, []⟩ s).submitted.length := by
              simp [List.append_assoc]
          _ = natRange 0 st.nSub
                ++ natRange st.nSub (feedDelta ⟨st.buffer, st.held, st.isFirst, []⟩ s).submitted.length := by
              rw [hacct]
          _ = natRange 0 (st.nSub + (feedDelta ⟨st.buffer, st.held, st.isFirst, []⟩ s).submitted.length) := by
              rw [natRange_append st.nSub 0]
              simp

theorem genLoop_inv (cfg : RunCfg) (tts : Bool) : ∀ (chunks : List UpChunk)
    (t : Nat) (st : GenState), genInv st → genInv (genLoop cfg tts t st chunks) := by
  intro chunks
  induction chunks with
  | nil => intro t st h; exact h
  | cons c rest ih =>
    intro t st h
    exact ih (t + 1) _ (genStep_inv cfg tts t st c h)

theorem getLast?_concat_eq {α : Type} (l : List α) (x : α) :
    (l ++ [x]).getLast? = some x := by
  rw [List.getLast?_append_cons]
  rfl

/-- Claim C7: for every synthesis schedule, session id, TTS flag and consumed
chunk prefix, if the upstream iterator then raises, the stream yields exactly
one terminal record — the error record carrying the message — as its last
event, and every audio job submitted so far has either been resolved by an
earlier drain or is among the futures cancelled by the except branch; and a
stream that ends without an exception also never ends without a terminal
record (the done record is last, and is the only terminal record). -/
theorem stream_error_emits_single_terminal_event (cfg : RunCfg) (sid : Str)
    (tts : Bool) (chunks : List UpChunk) (msg : Str) :
    ((genRun cfg sid tts chunks (some msg)).1.events.filter isTerminal
        = [SSEvent.errorEvt msg])
    ∧ ((genRun cfg sid tts chunks (some msg)).1.events.getLast?
        = some (SSEvent.errorEvt msg))
    ∧ ((genRun cfg sid tts chunks (some msg)).1.popped
        ++ ((genRun cfg sid tts chunks (some msg)).2.map Prod.fst)
        = natRange 0 (genRun cfg sid tts chunks (some msg)).1.nSub)
    ∧ ((genRun cfg sid tts chunks none).1.events.filter isTerminal
        = [SSEvent.doneEvt sid])
    ∧ ((genRun cfg sid tts chunks none).1.events.getLast?
        = some (SSEvent.doneEvt sid)) := by
  have hbase : genInv ⟨[], none, true, 0, [], [], [.openEvt sid]⟩ := by
    constructor
    · rfl
    · rfl
  have hinv := genLoop_inv cfg tts chunks 0 _ hbase
  obtain ⟨hterm, hacct⟩ := hinv
  refine ⟨?_, ?_, ?_, ?_, ?_⟩
  · simp [genRun, List.filter_append, hterm, isTerminal]
  · simp [genRun, getLast?_concat_eq]
  · simpa [genRun] using hacct
  · by_cases htts : tts = true
    · subst htts
      simp only [genRun, if_pos rfl]
      simp [List.filter_append, hterm, isTerminal, flushEvents_no_terminal]
    · have : tts = false := by
        cases tts
        · rfl
        · exact absurd rfl htts
      subst this
      simp only [genRun]
      rw [if_neg (by simp)]
      simp [List.filter_append, hterm, isTerminal]
  · by_cases htts : tts = true
    · subst htts
      simp only [genRun]
      rw [if_pos (by trivial)]
      dsimp only
      rw [getLast?_concat_eq]
    · have : tts = false := by
        cases tts
        · rfl
        · exact absurd rfl htts
      subst this
      simp only [genRun]
      rw [if_neg (by simp)]
      simp [getLast?_concat_eq]
